import Mathlib

/-!
Verification of the TizenRT task-deletion/cancellation core
(`os/kernel/task/task_delete.c`) and the gather-write routine
(`lib/libc/uio/lib_writev.c`), as shallow embeddings in Lean 4.

The kernel configuration modelled here has `CONFIG_CANCELLATION_POINTS`
defined (the build with cancellation-point support, which is the build the
specification describes).
-/

/-- Thread type stored in the TCB flags (`TCB_FLAG_TTYPE_MASK`). -/
inductive Ttype
  | task
  | kernel
  | pthread
deriving DecidableEq

/-- The slice of `struct tcb_s` that `task_delete` reads and writes:
`pid`, the flag bits `TCB_FLAG_NONCANCELABLE`, `TCB_FLAG_CANCEL_DEFERRED`,
`TCB_FLAG_CANCEL_PENDING`, the cancellation-point counter `cpcount`,
and the thread type bits. -/
structure Tcb where
  pid : Int
  noncancelable : Bool
  cancelDeferred : Bool
  cancelPending : Bool
  cpcount : Nat
  ttype : Ttype
deriving DecidableEq

/-- Observable events emitted by a run of `task_delete`:
`sched_lock` / `sched_unlock`, `notify_cancellation(dtcb)`,
`task_terminate(pid, nonblocking)` and `exit(code)`. -/
inductive Ev
  | lock
  | unlock
  | notify (pid : Int)
  | terminate (pid : Int) (graceful : Bool)
  | exitCall (code : Int)
deriving DecidableEq

/-- How a call to `task_delete` ends:
`ok` is `return OK`, `err e` is `return ERROR` with `errno` set to `e`,
`exited c` is `exit(c)` (control never returns to the caller), and
`assertFail` is the `DEBUGASSERT` tripping on a pthread target. -/
inductive DOutcome
  | ok
  | err (errno : Int)
  | exited (code : Int)
  | assertFail
deriving DecidableEq

/-- errno value for "no such process". -/
def ESRCH : Int := 3

/-- Exit status used by `exit(EXIT_SUCCESS)`. -/
def EXIT_SUCCESS : Int := 0

/-- Result of a run of `task_delete`: the outcome, the task registry after
the call (the `sched_gettcb` map, updated with any flag writes and, on
successful termination, with the target removed), and the event trace. -/
structure DeleteResult where
  outcome : DOutcome
  registry : Int → Option Tcb
  trace : List Ev

/-- Resolution of the `pid` argument: `pid == 0` means the calling task
(`rtcb->pid`, the head of `g_readytorun`). -/
def resolve (pid curPid : Int) : Int :=
  if pid = 0 then curPid else pid

/-- `task_delete` from `os/kernel/task/task_delete.c`, with
`CONFIG_CANCELLATION_POINTS` defined.

Inputs beyond the `pid` argument are the ambient state the C function
reads: `reg` is the `sched_gettcb` registry, `curPid` is the pid of the
currently running task (`g_readytorun.head`), and `terminate_ret` is the
value the external `task_terminate(pid, false)` call would return.

Branches, in source order: absent pid fails with `ESRCH`; a pthread
target trips `DEBUGASSERT`; a non-cancelable target gets
`TCB_FLAG_CANCEL_PENDING` set and the call returns `OK`; a
deferred-cancellation target gets the pending flag set,
`notify_cancellation` if `cpcount > 0`, and `OK`; otherwise the lock is
released and either the caller exits (self-delete) or
`task_terminate(pid, false)` runs, its negative failure code being moved
into `errno`.

The registry removal on successful termination is modelled from the
spec: TerminationService removes the task from TaskRegistry (the body of
`task_terminate` is outside the embedded sources). -/
def task_delete (reg : Int → Option Tcb) (curPid terminate_ret pid0 : Int) :
    DeleteResult :=
  let pid := resolve pid0 curPid
  match reg pid with
  | none => ⟨.err ESRCH, reg, []⟩
  | some dtcb =>
    if dtcb.ttype = .pthread then
      ⟨.assertFail, reg, []⟩
    else if dtcb.noncancelable then
      ⟨.ok,
       fun q => if q = pid then some { dtcb with cancelPending := true } else reg q,
       [.lock, .unlock]⟩
    else if dtcb.cancelDeferred then
      ⟨.ok,
       fun q => if q = pid then some { dtcb with cancelPending := true } else reg q,
       if 0 < dtcb.cpcount then [.lock, .notify pid, .unlock] else [.lock, .unlock]⟩
    else if pid = curPid then
      ⟨.exited EXIT_SUCCESS, reg, [.lock, .unlock, .exitCall EXIT_SUCCESS]⟩
    else if terminate_ret < 0 then
      ⟨.err (-terminate_ret), reg, [.lock, .unlock, .terminate pid false]⟩
    else
      ⟨.ok,
       fun q => if q = pid then none else reg q,
       [.lock, .unlock, .terminate pid false]⟩

/-- Number of `notify` events in a trace. -/
def countNotify : List Ev → Nat
  | [] => 0
  | .notify _ :: t => countNotify t + 1
  | _ :: t => countNotify t

/-- Number of `terminate` events in a trace. -/
def countTerminate : List Ev → Nat
  | [] => 0
  | .terminate _ _ :: t => countTerminate t + 1
  | _ :: t => countTerminate t

/-- Number of `exitCall` events in a trace. -/
def countExit : List Ev → Nat
  | [] => 0
  | .exitCall _ :: t => countExit t + 1
  | _ :: t => countExit t

/-- Number of `lock` events in a trace. -/
def countLock : List Ev → Nat
  | [] => 0
  | .lock :: t => countLock t + 1
  | _ :: t => countLock t

/-- Number of `unlock` events in a trace. -/
def countUnlock : List Ev → Nat
  | [] => 0
  | .unlock :: t => countUnlock t + 1
  | _ :: t => countUnlock t

/-- Checks that every `terminate` and `exitCall` event in the trace happens
at scheduler-lock nesting depth zero, starting from depth `d`. -/
def callsAtDepthZero (d : Int) : List Ev → Bool
  | [] => true
  | .lock :: t => callsAtDepthZero (d + 1) t
  | .unlock :: t => callsAtDepthZero (d - 1) t
  | .terminate _ _ :: t => d == 0 && callsAtDepthZero d t
  | .exitCall _ :: t => d == 0 && callsAtDepthZero d t
  | .notify _ :: t => callsAtDepthZero d t

/-- True when the outcome hands control back to the caller
(`return OK` or `return ERROR`), as opposed to exiting or halting on a
failed assertion. -/
def returnsToCaller : DOutcome → Bool
  | .ok => true
  | .err _ => true
  | .exited _ => false
  | .assertFail => false

/-!
Shallow embedding of `writev` from `lib/libc/uio/lib_writev.c`.

The file descriptor's behaviour is abstracted by oracles: `startPos` is
what `lseek(fildes, 0, SEEK_CUR)` returns at entry (`-1` meaning the
initial seek failed), `rs` is the list of results of the successive
`write` calls, and `restoreSeek` says whether the position-restoring
`lseek(fildes, pos, SEEK_SET)` on the error path fails (`some e` means it
fails having set `errno` to `e`; the source ignores its return value).
-/

/-- One `struct iovec` entry: the buffer base address and `iov_len`. -/
structure Iovec where
  iov_base : Nat
  iov_len : Nat
deriving DecidableEq

/-- Result of one underlying `write` call: `wok n` is a return of
`n ≥ 0` bytes written, `werr e` is a return of `-1` with `errno` set
to `e`. -/
inductive WRes
  | wok (n : Nat)
  | werr (e : Int)
deriving DecidableEq

/-- Record of one `write` call issued by `writev`: the buffer address
passed, the byte count requested, and the result the call returned. -/
structure WCall where
  addr : Nat
  req : Nat
  res : WRes
deriving DecidableEq

/-- How a loop over one or more buffers ended: the buffer area was
written completely (`done`), a `write` failed with `errno = e`
(`failed e`), or the oracle ran out of responses (`stuck`, a model
artifact meaning the response list does not cover the run). -/
inductive LoopOut
  | done
  | failed (e : Int)
  | stuck
deriving DecidableEq

/-- Result of `writeLoop`: the `write` calls issued, the total bytes
written (the amount added to `ntotal`), how the loop ended, and the
unconsumed responses. -/
structure LoopRes where
  calls : List WCall
  written : Int
  out : LoopOut
  left : List WRes
deriving DecidableEq

/-- The inner `do { ... } while (remaining > 0)` loop of `writev` for one
buffer area starting at `addr` with `remaining = rem` bytes (entered with
`rem > 0`). Each iteration consumes one response from `rs`. A negative
`write` return takes the error path; otherwise `buffer += nwritten` and
`remaining -= nwritten`, where `remaining` is a C `size_t`, hence the
reduction modulo `2 ^ 64`. -/
def writeLoop (addr rem : Nat) : List WRes → LoopRes
  | [] => ⟨[], 0, .stuck, []⟩
  | .werr e :: rest => ⟨[⟨addr, rem, .werr e⟩], 0, .failed e, rest⟩
  | .wok n :: rest =>
    let rem2 := ((((rem : Int) - (n : Int)) % (2 ^ 64)).toNat : Nat)
    if 0 < rem2 then
      let t := writeLoop (addr + n) rem2 rest
      ⟨⟨addr, rem, .wok n⟩ :: t.calls, (n : Int) + t.written, t.out, t.left⟩
    else
      ⟨[⟨addr, rem, .wok n⟩], (n : Int), .done, rest⟩

/-- Result of `writevLoop`: one list of `write` calls per iovec entry (in
entry order, empty for a zero-length entry), the accumulated `ntotal`,
how the run ended, and the unconsumed responses. On an error the groups
of the entries processed so far, the failing one included, are kept. -/
structure VLoopRes where
  groups : List (List WCall)
  written : Int
  out : LoopOut
  left : List WRes
deriving DecidableEq

/-- The outer `for (i = 0, ntotal = 0; i < iovcnt; i++)` loop of `writev`:
zero-length entries are skipped (`if (iov[i].iov_len > 0)`); each other
entry runs `writeLoop`; an error or exhausted oracle stops the loop. -/
def writevLoop : List Iovec → List WRes → VLoopRes
  | [], rs => ⟨[], 0, .done, rs⟩
  | e :: es, rs =>
    if 0 < e.iov_len then
      let t := writeLoop e.iov_base e.iov_len rs
      match t.out with
      | .done =>
        let v := writevLoop es t.left
        ⟨t.calls :: v.groups, t.written + v.written, v.out, v.left⟩
      | o => ⟨[t.calls], t.written, o, t.left⟩
    else
      let v := writevLoop es rs
      ⟨[] :: v.groups, v.written, v.out, v.left⟩

/-- How the modelled `writev` call ends: `ret n` is a normal return of
`n` (the accumulated `ntotal`), `error` is `return ERROR` (`-1`), and
`stuck` is the model artifact of an exhausted response oracle. -/
inductive WvOutcome
  | ret (n : Int)
  | error
  | stuck
deriving DecidableEq

/-- Observable result of a `writev` run: the outcome, the `write` calls
grouped per iovec entry, the file position after the call, and the final
`errno` (`errno0` being its value at entry). -/
structure WvResult where
  outcome : WvOutcome
  trace : List (List WCall)
  finalPos : Int
  errno : Int

/-- `writev` from `lib/libc/uio/lib_writev.c`. The entry
`lseek(fildes, 0, SEEK_CUR)` result is `startPos`; `-1` makes the call
return `ERROR` at once. Each successful `write` advances the file
position by the bytes written, so on a normal return the position is
`startPos` plus the total. On a `write` error the code saves `errno`
(set by the failing `write`), restores the position with
`lseek(fildes, pos, SEEK_SET)` (ignoring its result), writes the saved
value back with `set_errno(save)`, and returns `ERROR`; if that
restoring seek fails (`restoreSeek = some e2`) the position stays where
the writes left it, but the final `errno` is the saved one either way. -/
def writev (startPos : Int) (iov : List Iovec) (rs : List WRes)
    (restoreSeek : Option Int) (errno0 : Int) : WvResult :=
  if startPos = -1 then ⟨.error, [], startPos, errno0⟩
  else
    let v := writevLoop iov rs
    match v.out with
    | .done => ⟨.ret v.written, v.groups, startPos + v.written, errno0⟩
    | .failed e =>
      let save := e
      ⟨.error, v.groups,
       match restoreSeek with
       | none => startPos
       | some _ => startPos + v.written,
       save⟩
    | .stuck => ⟨.stuck, v.groups, startPos + v.written, errno0⟩

/-- True when the `write` call succeeded and wrote no more than it was
asked to (the POSIX `write` contract). -/
def callOk (c : WCall) : Bool :=
  match c.res with
  | .wok n => Nat.ble n c.req
  | .werr _ => false

/-- Checks that a list of `write` calls writes the buffer area
`[a, a + rem)` completely and in order: each call is issued at the
current position for exactly the bytes still remaining, and the area is
exhausted at the end. -/
def callsCover (a rem : Nat) : List WCall → Bool
  | [] => rem == 0
  | c :: cs =>
    match c.res with
    | .werr _ => false
    | .wok n => c.addr == a && c.req == rem && Nat.ble n rem && callsCover (a + n) (rem - n) cs

/-- Checks `callsCover` entry-wise: the k-th group of write calls covers
the k-th iovec entry, for all entries. -/
def coversAll : List Iovec → List (List WCall) → Bool
  | [], [] => true
  | e :: es, cl :: cls => callsCover e.iov_base e.iov_len cl && coversAll es cls
  | _, _ => false

/-!
Concrete fixtures used by the closed witness theorems: a small registry
with one task per cancellation configuration, and small iovec/response
lists for `writev`.
-/

/-- Fixture: the currently running task (pid 1), asynchronous-enabled. -/
def tcbCur : Tcb := ⟨1, false, false, false, 0, .task⟩

/-- Fixture: a non-cancelable task (pid 5). -/
def tcbNC : Tcb := ⟨5, true, false, false, 0, .task⟩

/-- Fixture: a deferred-cancellation task blocked in two cancellation
points (pid 6). -/
def tcbDef2 : Tcb := ⟨6, false, true, false, 2, .task⟩

/-- Fixture: a deferred-cancellation task at no cancellation point
(pid 7). -/
def tcbDef0 : Tcb := ⟨7, false, true, false, 0, .task⟩

/-- Fixture: another asynchronous-cancellation task (pid 8). -/
def tcbAsync : Tcb := ⟨8, false, false, false, 0, .task⟩

/-- Fixture: a non-cancelable task whose cancellation is already pending
(pid 9). -/
def tcbPend : Tcb := ⟨9, true, false, true, 0, .task⟩

/-- Fixture registry holding the six tasks above. -/
def regW : Int → Option Tcb := fun q =>
  if q = 1 then some tcbCur
  else if q = 5 then some tcbNC
  else if q = 6 then some tcbDef2
  else if q = 7 then some tcbDef0
  else if q = 8 then some tcbAsync
  else if q = 9 then some tcbPend
  else none

/-- Fixture iovec array: a 2-byte area, a zero-length area, a 1-byte
area. -/
def iovW : List Iovec := [⟨100, 2⟩, ⟨200, 0⟩, ⟨300, 1⟩]

/-- Fixture write responses: three 1-byte writes (the first area needs
two calls). -/
def rsW : List WRes := [.wok 1, .wok 1, .wok 1]

/-- Fixture iovec array for the error path: one 3-byte area. -/
def iovErr : List Iovec := [⟨100, 3⟩]

/-- Fixture write responses for the error path: a 1-byte write, then a
failure with `errno = 5`. -/
def rsErr : List WRes := [.wok 1, .werr 5]

/-- C1: a deferred-cancellation, cancelable target gets `cancelPending`
set, the call returns success, and the notifier runs exactly once when
the target sits in a cancellation point (`cpcount > 0`) and not at all
when `cpcount = 0`. -/
theorem task_delete_deferred_enabled (reg : Int → Option Tcb)
    (cur tr p : Int) (d : Tcb)
    (hfound : reg (resolve p cur) = some d)
    (hty : d.ttype ≠ .pthread)
    (hnc : d.noncancelable = false)
    (hdef : d.cancelDeferred = true) :
    (task_delete reg cur tr p).outcome = .ok ∧
    (∃ d2, (task_delete reg cur tr p).registry (resolve p cur) = some d2 ∧
      d2.cancelPending = true) ∧
    countNotify (task_delete reg cur tr p).trace =
      (if 0 < d.cpcount then 1 else 0) := by
  by_cases hc : 0 < d.cpcount <;>
    simp [task_delete, hfound, hty, hnc, hdef, hc, countNotify]

/-- C1 witness: deleting the blocked deferred task of the fixture
registry. -/
theorem task_delete_deferred_enabled_witness :
    (task_delete regW 1 0 6).outcome = .ok ∧
    (∃ d2, (task_delete regW 1 0 6).registry (resolve 6 1) = some d2 ∧
      d2.cancelPending = true) ∧
    countNotify (task_delete regW 1 0 6).trace =
      (if 0 < tcbDef2.cpcount then 1 else 0) :=
  task_delete_deferred_enabled regW 1 0 6 tcbDef2 (by decide) (by decide)
    (by decide) (by decide)

/-- C2: a non-cancelable target gets `cancelPending` set, the call
returns success, the target stays in the registry, and
`task_terminate` is never invoked. -/
theorem task_delete_noncancelable (reg : Int → Option Tcb)
    (cur tr p : Int) (d : Tcb)
    (hfound : reg (resolve p cur) = some d)
    (hty : d.ttype ≠ .pthread)
    (hnc : d.noncancelable = true) :
    (task_delete reg cur tr p).outcome = .ok ∧
    (∃ d2, (task_delete reg cur tr p).registry (resolve p cur) = some d2 ∧
      d2.cancelPending = true) ∧
    countTerminate (task_delete reg cur tr p).trace = 0 := by
  simp [task_delete, hfound, hty, hnc, countTerminate]

/-- C2 witness: deleting the non-cancelable task of the fixture
registry. -/
theorem task_delete_noncancelable_witness :
    (task_delete regW 1 0 5).outcome = .ok ∧
    (∃ d2, (task_delete regW 1 0 5).registry (resolve 5 1) = some d2 ∧
      d2.cancelPending = true) ∧
    countTerminate (task_delete regW 1 0 5).trace = 0 :=
  task_delete_noncancelable regW 1 0 5 tcbNC (by decide) (by decide) (by decide)

/-- C3: a task deleting itself (pid argument `0` or its own pid) with
cancelability enabled and asynchronous cancellation ends in
`exit(EXIT_SUCCESS)`; control never returns to the caller. -/
theorem task_delete_self_async_exits (reg : Int → Option Tcb)
    (cur tr p : Int) (d : Tcb)
    (hp : p = 0 ∨ p = cur)
    (hfound : reg cur = some d)
    (hty : d.ttype ≠ .pthread)
    (hnc : d.noncancelable = false)
    (hdef : d.cancelDeferred = false) :
    (task_delete reg cur tr p).outcome = .exited EXIT_SUCCESS := by
  have hres : resolve p cur = cur := by
    rcases hp with h | h <;> subst h <;> simp [resolve]
  simp [task_delete, hres, hfound, hty, hnc, hdef]

/-- C3 witness: the fixture's running task (pid 1) deleting itself via
pid argument `0`. -/
theorem task_delete_self_async_exits_witness :
    (task_delete regW 1 0 0).outcome = .exited EXIT_SUCCESS :=
  task_delete_self_async_exits regW 1 0 0 tcbCur (Or.inl rfl) (by decide)
    (by decide) (by decide) (by decide)

/-- C6: an unresolvable pid makes `task_delete` fail with
`errno = ESRCH` and `ERROR`, leaving the registry untouched and
emitting no event at all. -/
theorem task_delete_not_found (reg : Int → Option Tcb) (cur tr p : Int)
    (hnone : reg (resolve p cur) = none) :
    (task_delete reg cur tr p).outcome = .err ESRCH ∧
    (task_delete reg cur tr p).registry = reg ∧
    (task_delete reg cur tr p).trace = [] := by
  simp [task_delete, hnone]

/-- C6 witness: deleting pid 999999, which the fixture registry does not
hold. -/
theorem task_delete_not_found_witness :
    (task_delete regW 1 0 999999).outcome = .err ESRCH ∧
    (task_delete regW 1 0 999999).registry = regW ∧
    (task_delete regW 1 0 999999).trace = [] :=
  task_delete_not_found regW 1 0 999999 (by decide)

/-- C4: a task deleting itself while non-cancelable or under deferred
cancellation does not exit: the call marks it pending, returns success,
and emits no `exit`. -/
theorem task_delete_self_not_async_returns (reg : Int → Option Tcb)
    (cur tr p : Int) (d : Tcb)
    (hp : p = 0 ∨ p = cur)
    (hfound : reg cur = some d)
    (hty : d.ttype ≠ .pthread)
    (hflag : d.noncancelable = true ∨ d.cancelDeferred = true) :
    (task_delete reg cur tr p).outcome = .ok ∧
    (∃ d2, (task_delete reg cur tr p).registry cur = some d2 ∧
      d2.cancelPending = true) ∧
    countExit (task_delete reg cur tr p).trace = 0 := by
  have hres : resolve p cur = cur := by
    rcases hp with h | h <;> subst h <;> simp [resolve]
  by_cases hnc : d.noncancelable
  · simp [task_delete, hres, hfound, hty, hnc, countExit]
  · rcases hflag with h | h
    · exact absurd h (by simpa using hnc)
    · by_cases hc : 0 < d.cpcount <;>
        simp [task_delete, hres, hfound, hty, hnc, h, hc, countExit]

/-- C4 witness: the deferred task (pid 6) deleting itself via pid
argument `0` while it is the running task. -/
theorem task_delete_self_not_async_returns_witness :
    (task_delete regW 6 0 0).outcome = .ok ∧
    (∃ d2, (task_delete regW 6 0 0).registry 6 = some d2 ∧
      d2.cancelPending = true) ∧
    countExit (task_delete regW 6 0 0).trace = 0 :=
  task_delete_self_not_async_returns regW 6 0 0 tcbDef2 (Or.inl rfl)
    (by decide) (by decide) (Or.inr (by decide))

/-- C5: deleting another task that is cancelable with asynchronous
cancellation invokes `task_terminate(pid, false)` exactly once; a
negative service code is negated into `errno` with `ERROR` returned,
and a non-negative one yields success. -/
theorem task_delete_other_async_terminates (reg : Int → Option Tcb)
    (cur tr p : Int) (d : Tcb)
    (hp0 : p ≠ 0)
    (hpc : p ≠ cur)
    (hfound : reg p = some d)
    (hty : d.ttype ≠ .pthread)
    (hnc : d.noncancelable = false)
    (hdef : d.cancelDeferred = false) :
    countTerminate (task_delete reg cur tr p).trace = 1 ∧
    Ev.terminate p false ∈ (task_delete reg cur tr p).trace ∧
    (tr < 0 → (task_delete reg cur tr p).outcome = .err (-tr)) ∧
    (0 ≤ tr → (task_delete reg cur tr p).outcome = .ok) := by
  have hres : resolve p cur = p := by simp [resolve, hp0]
  refine ⟨?_, ?_, ?_, ?_⟩
  · by_cases ht : tr < 0 <;>
      simp [task_delete, hres, hfound, hty, hnc, hdef, hpc, ht, countTerminate]
  · by_cases ht : tr < 0 <;>
      simp [task_delete, hres, hfound, hty, hnc, hdef, hpc, ht]
  · intro ht
    simp [task_delete, hres, hfound, hty, hnc, hdef, hpc, ht]
  · intro ht
    have ht2 : ¬tr < 0 := by omega
    simp [task_delete, hres, hfound, hty, hnc, hdef, hpc, ht2]

/-- C5 witness: deleting the asynchronous task (pid 8) from the running
task (pid 1) with the termination service failing with code `-7`. -/
theorem task_delete_other_async_terminates_witness :
    countTerminate (task_delete regW 1 (-7) 8).trace = 1 ∧
    Ev.terminate 8 false ∈ (task_delete regW 1 (-7) 8).trace ∧
    (task_delete regW 1 (-7) 8).outcome = .err 7 := by
  obtain ⟨h1, h2, h3, _⟩ :=
    task_delete_other_async_terminates regW 1 (-7) 8 tcbAsync (by decide)
      (by decide) (by decide) (by decide) (by decide) (by decide)
  refine ⟨h1, h2, ?_⟩
  simpa using h3 (by norm_num)

/-- Helper: the registry after a `task_delete` run is pointwise either
unchanged, the target with its pending flag set, or (after successful
termination) the target removed. -/
theorem task_delete_registry_cases (reg : Int → Option Tcb)
    (cur tr p q : Int) :
    (task_delete reg cur tr p).registry q = reg q ∨
    (∃ dtcb, reg (resolve p cur) = some dtcb ∧ q = resolve p cur ∧
      (task_delete reg cur tr p).registry q =
        some { dtcb with cancelPending := true }) ∨
    (task_delete reg cur tr p).registry q = none := by
  rcases hr : reg (resolve p cur) with _ | dtcb
  · left; simp [task_delete, hr]
  · by_cases hty : dtcb.ttype = .pthread
    · left; simp [task_delete, hr, hty]
    · by_cases hnc : dtcb.noncancelable
      · by_cases hq : q = resolve p cur
        · exact Or.inr (Or.inl ⟨dtcb, rfl, hq, by simp [task_delete, hr, hty, hnc, hq]⟩)
        · left; simp [task_delete, hr, hty, hnc, hq]
      · by_cases hdf : dtcb.cancelDeferred
        · by_cases hq : q = resolve p cur
          · exact Or.inr (Or.inl ⟨dtcb, rfl, hq, by simp [task_delete, hr, hty, hnc, hdf, hq]⟩)
          · left; simp [task_delete, hr, hty, hnc, hdf, hq]
        · by_cases hpc : resolve p cur = cur
          · left
            simp only [task_delete, hr]
            simp [hty, hnc, hdf, hpc]
          · by_cases ht : tr < 0
            · left; simp [task_delete, hr, hty, hnc, hdf, hpc, ht]
            · by_cases hq : q = resolve p cur
              · right; right; simp [task_delete, hr, hty, hnc, hdf, hpc, ht, hq]
              · left; simp [task_delete, hr, hty, hnc, hdf, hpc, ht, hq]

/-- Helper: on the non-cancelable and deferred branches the target ends
up in the registry with its pending flag set and its other fields
unchanged. -/
theorem task_delete_sets_pending (reg : Int → Option Tcb)
    (cur tr p : Int) (d : Tcb)
    (hfound : reg (resolve p cur) = some d)
    (hty : d.ttype ≠ .pthread)
    (hflag : d.noncancelable = true ∨ d.cancelDeferred = true) :
    (task_delete reg cur tr p).registry (resolve p cur) =
      some { d with cancelPending := true } := by
  by_cases hnc : d.noncancelable
  · simp [task_delete, hfound, hty, hnc]
  · rcases hflag with h | h
    · exact absurd h (by simpa using hnc)
    · by_cases hc : 0 < d.cpcount <;>
        simp [task_delete, hfound, hty, hnc, h, hc]

/-- C7: `task_delete` never clears a set `cancelPending` flag of any
task, and two successive deletions of a non-cancelable or deferred
target leave the target with `cancelPending = true`. -/
theorem task_delete_pending_sticky (reg : Int → Option Tcb)
    (cur tr1 tr2 p : Int) :
    (∀ q d d2, reg q = some d → d.cancelPending = true →
      (task_delete reg cur tr1 p).registry q = some d2 →
      d2.cancelPending = true) ∧
    (∀ d, reg (resolve p cur) = some d → d.ttype ≠ .pthread →
      (d.noncancelable = true ∨ d.cancelDeferred = true) →
      ∃ d2,
        (task_delete (task_delete reg cur tr1 p).registry cur tr2 p).registry
          (resolve p cur) = some d2 ∧ d2.cancelPending = true) := by
  constructor
  · intro q d d2 h1 h2 h3
    rcases task_delete_registry_cases reg cur tr1 p q with hc | ⟨dt, _, _, hc⟩ | hc
    · rw [hc, h1] at h3
      injection h3 with h
      rwa [← h]
    · rw [hc] at h3
      injection h3 with h
      exact h ▸ rfl
    · rw [hc] at h3
      simp at h3
  · intro d hfound hty hflag
    have h1 := task_delete_sets_pending reg cur tr1 p d hfound hty hflag
    have h2 := task_delete_sets_pending (task_delete reg cur tr1 p).registry
      cur tr2 p { d with cancelPending := true } h1 (by simpa using hty)
      (by simpa using hflag)
    exact ⟨_, h2, rfl⟩

/-- C7 witness: the already-pending task (pid 9) keeps its flag across a
deletion of pid 6, and deleting the deferred task (pid 6) twice leaves
it pending. -/
theorem task_delete_pending_sticky_witness :
    tcbPend.cancelPending = true ∧
    (∃ d2,
      (task_delete (task_delete regW 1 0 6).registry 1 0 6).registry
        (resolve 6 1) = some d2 ∧ d2.cancelPending = true) := by
  obtain ⟨ha, hb⟩ := task_delete_pending_sticky regW 1 0 0 6
  exact ⟨ha 9 tcbPend tcbPend (by decide) (by decide) (by decide),
    hb tcbDef2 (by decide) (by decide) (Or.inr (by decide))⟩

/-- C8: the scheduler lock is balanced: every returning run of
`task_delete` on a resolvable pid does exactly one `sched_lock` and one
`sched_unlock`, the not-found path never touches the lock, and every
`exit` or `task_terminate` happens at lock nesting depth zero. -/
theorem task_delete_lock_balanced (reg : Int → Option Tcb)
    (cur tr p : Int) :
    countLock (task_delete reg cur tr p).trace =
      countUnlock (task_delete reg cur tr p).trace ∧
    callsAtDepthZero 0 (task_delete reg cur tr p).trace = true ∧
    (reg (resolve p cur) = none →
      countLock (task_delete reg cur tr p).trace = 0) ∧
    (returnsToCaller (task_delete reg cur tr p).outcome = true →
      reg (resolve p cur) ≠ none →
      countLock (task_delete reg cur tr p).trace = 1) := by
  rcases hr : reg (resolve p cur) with _ | d
  · simp [task_delete, hr, countLock, countUnlock, callsAtDepthZero]
  · by_cases hty : d.ttype = .pthread
    · simp [task_delete, hr, hty, countLock, countUnlock, callsAtDepthZero,
        returnsToCaller]
    · by_cases hnc : d.noncancelable
      · simp [task_delete, hr, hty, hnc, countLock, countUnlock,
          callsAtDepthZero, returnsToCaller]
      · by_cases hdf : d.cancelDeferred
        · by_cases hc : 0 < d.cpcount <;>
            simp [task_delete, hr, hty, hnc, hdf, hc, countLock, countUnlock,
              callsAtDepthZero, returnsToCaller]
        · by_cases hpc : resolve p cur = cur
          · simp only [task_delete, hr]
            simp [hty, hnc, hdf, hpc, countLock, countUnlock,
              callsAtDepthZero, returnsToCaller]
          · by_cases ht : tr < 0 <;>
              simp [task_delete, hr, hty, hnc, hdf, hpc, ht, countLock,
                countUnlock, callsAtDepthZero, returnsToCaller]

/-- C8 witness: deleting the non-cancelable task (pid 5): one lock, one
unlock, all terminal calls at depth zero. -/
theorem task_delete_lock_balanced_witness :
    countLock (task_delete regW 1 0 5).trace =
      countUnlock (task_delete regW 1 0 5).trace ∧
    callsAtDepthZero 0 (task_delete regW 1 0 5).trace = true ∧
    countLock (task_delete regW 1 0 5).trace = 1 := by
  obtain ⟨h1, h2, _, h4⟩ := task_delete_lock_balanced regW 1 0 5
  exact ⟨h1, h2, h4 (by decide) (by decide)⟩

/-- Helper: with every issued `write` succeeding and writing at most what
was requested, the inner loop either runs out of responses or completes
the buffer area exactly: it ends `done`, adds precisely `rem` bytes to
`ntotal`, and its calls cover `[addr, addr + rem)` in order. -/
theorem writeLoop_ok (rs : List WRes) : ∀ addr rem : Nat, 0 < rem →
    rem < 2 ^ 64 →
    (∀ c ∈ (writeLoop addr rem rs).calls, callOk c = true) →
    (writeLoop addr rem rs).out = .stuck ∨
      ((writeLoop addr rem rs).out = .done ∧
       (writeLoop addr rem rs).written = (rem : Int) ∧
       callsCover addr rem (writeLoop addr rem rs).calls = true) := by
  induction rs with
  | nil =>
    intro addr rem _ _ _
    left
    rfl
  | cons r rest ih =>
    intro addr rem hrem hub hcalls
    cases r with
    | werr e =>
      exfalso
      have hm : (⟨addr, rem, WRes.werr e⟩ : WCall) ∈
          (writeLoop addr rem (WRes.werr e :: rest)).calls := by
        simp [writeLoop]
      have h := hcalls _ hm
      simp [callOk] at h
    | wok n =>
      have hm : (⟨addr, rem, WRes.wok n⟩ : WCall) ∈
          (writeLoop addr rem (WRes.wok n :: rest)).calls := by
        simp only [writeLoop]
        split
        · exact List.mem_cons_self _ _
        · exact List.mem_cons_self _ _
      have hn : n ≤ rem := by
        have h := hcalls _ hm
        simpa [callOk, Nat.ble_eq] using h
      have hemod : ((((rem : Int) - (n : Int)) % (2 ^ 64)).toNat : Nat) = rem - n := by
        have h64 : ((2 : Int) ^ 64) = 18446744073709551616 := by norm_num
        rw [h64]
        have hub2 : rem < 18446744073709551616 := by
          have h : (2 : Nat) ^ 64 = 18446744073709551616 := by norm_num
          omega
        omega
      by_cases hlt : 0 < rem - n
      · have heq : writeLoop addr rem (WRes.wok n :: rest) =
            ⟨⟨addr, rem, WRes.wok n⟩ :: (writeLoop (addr + n) (rem - n) rest).calls,
             (n : Int) + (writeLoop (addr + n) (rem - n) rest).written,
             (writeLoop (addr + n) (rem - n) rest).out,
             (writeLoop (addr + n) (rem - n) rest).left⟩ := by
          simp only [writeLoop, hemod]
          rw [if_pos hlt]
        have hsub : ∀ c ∈ (writeLoop (addr + n) (rem - n) rest).calls,
            callOk c = true := by
          intro c hc
          apply hcalls
          rw [heq]
          exact List.mem_cons_of_mem _ hc
        rcases ih (addr + n) (rem - n) hlt (by omega) hsub with
          hstuck | ⟨hdone, hw, hcov⟩
        · left
          rw [heq]
          exact hstuck
        · right
          rw [heq]
          refine ⟨hdone, ?_, ?_⟩
          · show (n : Int) + (writeLoop (addr + n) (rem - n) rest).written =
              (rem : Int)
            rw [hw]
            omega
          · show callsCover addr rem (⟨addr, rem, WRes.wok n⟩ ::
              (writeLoop (addr + n) (rem - n) rest).calls) = true
            simp [callsCover, Nat.ble_eq, hn, hcov]
      · have heq : writeLoop addr rem (WRes.wok n :: rest) =
            ⟨[⟨addr, rem, WRes.wok n⟩], (n : Int), .done, rest⟩ := by
          simp only [writeLoop, hemod]
          rw [if_neg hlt]
        right
        rw [heq]
        have hz : rem - n = 0 := by omega
        refine ⟨rfl, ?_, ?_⟩
        · show (n : Int) = (rem : Int)
          omega
        · show callsCover addr rem [⟨addr, rem, WRes.wok n⟩] = true
          simp [callsCover, Nat.ble_eq, hn, hz]

/-- Helper: with every issued `write` succeeding within its request, the
outer loop either runs out of responses or finishes with `ntotal` equal
to the sum of the `iov_len` fields and every entry covered, in order, by
its group of calls. -/
theorem writevLoop_ok (iov : List Iovec) : ∀ rs : List WRes,
    (∀ e ∈ iov, e.iov_len < 2 ^ 64) →
    (∀ cl ∈ (writevLoop iov rs).groups, ∀ c ∈ cl, callOk c = true) →
    (writevLoop iov rs).out = .stuck ∨
      ((writevLoop iov rs).out = .done ∧
       (writevLoop iov rs).written = ((iov.map Iovec.iov_len).sum : Int) ∧
       coversAll iov (writevLoop iov rs).groups = true) := by
  induction iov with
  | nil =>
    intro rs _ _
    right
    exact ⟨rfl, rfl, rfl⟩
  | cons e es ih =>
    intro rs hlen hcalls
    by_cases hl : 0 < e.iov_len
    · have hmem : (writeLoop e.iov_base e.iov_len rs).calls ∈
          (writevLoop (e :: es) rs).groups := by
        simp only [writevLoop]
        rw [if_pos hl]
        cases hco : (writeLoop e.iov_base e.iov_len rs).out <;> simp
      have hcT : ∀ c ∈ (writeLoop e.iov_base e.iov_len rs).calls,
          callOk c = true := fun c hc => hcalls _ hmem c hc
      rcases writeLoop_ok rs e.iov_base e.iov_len hl
          (hlen e (List.mem_cons_self _ _)) hcT with hstuck | ⟨hdone, hw, hcov⟩
      · left
        simp only [writevLoop]
        rw [if_pos hl, hstuck]
      · have heq : writevLoop (e :: es) rs =
            ⟨(writeLoop e.iov_base e.iov_len rs).calls ::
               (writevLoop es (writeLoop e.iov_base e.iov_len rs).left).groups,
             (writeLoop e.iov_base e.iov_len rs).written +
               (writevLoop es (writeLoop e.iov_base e.iov_len rs).left).written,
             (writevLoop es (writeLoop e.iov_base e.iov_len rs).left).out,
             (writevLoop es (writeLoop e.iov_base e.iov_len rs).left).left⟩ := by
          simp only [writevLoop]
          rw [if_pos hl, hdone]
        have hlen2 : ∀ e2 ∈ es, e2.iov_len < 2 ^ 64 :=
          fun e2 h => hlen e2 (List.mem_cons_of_mem _ h)
        have hcalls2 : ∀ cl ∈
            (writevLoop es (writeLoop e.iov_base e.iov_len rs).left).groups,
            ∀ c ∈ cl, callOk c = true := by
          intro cl hcl c hc
          apply hcalls cl _ c hc
          rw [heq]
          exact List.mem_cons_of_mem _ hcl
        rcases ih (writeLoop e.iov_base e.iov_len rs).left hlen2 hcalls2 with
          vstuck | ⟨vdone, vw, vcov⟩
        · left
          rw [heq]
          exact vstuck
        · right
          rw [heq]
          refine ⟨vdone, ?_, ?_⟩
          · show (writeLoop e.iov_base e.iov_len rs).written +
              (writevLoop es (writeLoop e.iov_base e.iov_len rs).left).written =
              (((e :: es).map Iovec.iov_len).sum : Int)
            rw [hw, vw]
            push_cast [List.map_cons, List.sum_cons]
            ring
          · show coversAll (e :: es)
              ((writeLoop e.iov_base e.iov_len rs).calls ::
                (writevLoop es (writeLoop e.iov_base e.iov_len rs).left).groups) =
              true
            simp [coversAll, hcov, vcov]
    · have heq : writevLoop (e :: es) rs =
          ⟨[] :: (writevLoop es rs).groups, (writevLoop es rs).written,
           (writevLoop es rs).out, (writevLoop es rs).left⟩ := by
        simp only [writevLoop]
        rw [if_neg hl]
      have hlen2 : ∀ e2 ∈ es, e2.iov_len < 2 ^ 64 :=
        fun e2 h => hlen e2 (List.mem_cons_of_mem _ h)
      have hcalls2 : ∀ cl ∈ (writevLoop es rs).groups, ∀ c ∈ cl,
          callOk c = true := by
        intro cl hcl c hc
        apply hcalls cl _ c hc
        rw [heq]
        exact List.mem_cons_of_mem _ hcl
      rcases ih rs hlen2 hcalls2 with vstuck | ⟨vdone, vw, vcov⟩
      · left
        rw [heq]
        exact vstuck
      · right
        rw [heq]
        have hz : e.iov_len = 0 := by omega
        refine ⟨vdone, ?_, ?_⟩
        · show (writevLoop es rs).written =
            (((e :: es).map Iovec.iov_len).sum : Int)
          rw [vw]
          simp [hz]
        · show coversAll (e :: es) ([] :: (writevLoop es rs).groups) = true
          simp [coversAll, callsCover, hz, vcov]

/-- Helper: with every `iov_len` zero, the outer loop issues no `write`
call at all. -/
theorem writevLoop_zero_flatten (iov : List Iovec) : ∀ rs : List WRes,
    (∀ e ∈ iov, e.iov_len = 0) →
    (writevLoop iov rs).groups.flatten = [] := by
  induction iov with
  | nil => intro rs _; rfl
  | cons e es ih =>
    intro rs hz
    have he : e.iov_len = 0 := hz e (List.mem_cons_self _ _)
    have heq : writevLoop (e :: es) rs =
        ⟨[] :: (writevLoop es rs).groups, (writevLoop es rs).written,
         (writevLoop es rs).out, (writevLoop es rs).left⟩ := by
      simp only [writevLoop]
      rw [if_neg (by omega)]
    rw [heq]
    have h2 := ih rs fun e2 h => hz e2 (List.mem_cons_of_mem _ h)
    simpa using h2

/-- C9: when every underlying `write` call succeeds (within its request)
and the oracle covers the run, `writev` returns the sum of all
`iov_len` values and writes each buffer area completely and in order;
in particular an all-zero-length vector returns `0` with no `write`
call at all. -/
theorem writev_success_total (startPos : Int) (iov : List Iovec)
    (rs : List WRes) (restoreSeek : Option Int) (errno0 : Int)
    (hpos : startPos ≠ -1)
    (hlen : ∀ e ∈ iov, e.iov_len < 2 ^ 64)
    (hok : ∀ cl ∈ (writev startPos iov rs restoreSeek errno0).trace,
      ∀ c ∈ cl, callOk c = true)
    (hns : (writev startPos iov rs restoreSeek errno0).outcome ≠ .stuck) :
    (writev startPos iov rs restoreSeek errno0).outcome =
      .ret ((iov.map Iovec.iov_len).sum : Int) ∧
    coversAll iov (writev startPos iov rs restoreSeek errno0).trace = true ∧
    ((∀ e ∈ iov, e.iov_len = 0) →
      (writev startPos iov rs restoreSeek errno0).trace.flatten = [] ∧
      (writev startPos iov rs restoreSeek errno0).outcome = .ret 0) := by
  have htr : (writev startPos iov rs restoreSeek errno0).trace =
      (writevLoop iov rs).groups := by
    simp only [writev, if_neg hpos]
    cases h : (writevLoop iov rs).out <;> simp
  rw [htr] at hok
  rcases writevLoop_ok iov rs hlen hok with hstuck | ⟨hdone, hw, hcov⟩
  · exfalso
    apply hns
    simp only [writev, if_neg hpos]
    rw [hstuck]
  · refine ⟨?_, ?_, ?_⟩
    · simp only [writev, if_neg hpos]
      rw [hdone, hw]
    · rw [htr]
      exact hcov
    · intro hz
      have hfl := writevLoop_zero_flatten iov rs hz
      have hsum : (iov.map Iovec.iov_len).sum = 0 :=
        List.sum_eq_zero (by
          intro x hx
          simp only [List.mem_map] at hx
          obtain ⟨e2, he2, rfl⟩ := hx
          exact hz e2 he2)
      constructor
      · rw [htr]
        exact hfl
      · simp only [writev, if_neg hpos]
        rw [hdone, hw, hsum]
        norm_num

/-- C9 witness: a 2-byte area written by two partial 1-byte writes, a
zero-length area, and a 1-byte area: `writev` returns 3 and covers all
areas in order. -/
theorem writev_success_total_witness :
    (writev 10 iovW rsW none 0).outcome =
      .ret ((iovW.map Iovec.iov_len).sum : Int) ∧
    coversAll iovW (writev 10 iovW rsW none 0).trace = true := by
  obtain ⟨h1, h2, _⟩ := writev_success_total 10 iovW rsW none 0 (by decide)
    (by decide) (by decide) (by decide)
  exact ⟨h1, h2⟩

/-- C10: when an underlying `write` call fails with `errno = e`,
`writev` returns `ERROR`, the caller observes `errno = e` whatever the
position-restoring seek does to `errno` (the source saves and restores
it around the seek), and when that seek succeeds the file position is
back at the value read at entry. -/
theorem writev_error_restores (startPos : Int) (iov : List Iovec)
    (rs : List WRes) (restoreSeek : Option Int) (errno0 e : Int)
    (hpos : startPos ≠ -1)
    (hfail : (writevLoop iov rs).out = .failed e) :
    (writev startPos iov rs restoreSeek errno0).outcome = .error ∧
    (writev startPos iov rs restoreSeek errno0).errno = e ∧
    (restoreSeek = none →
      (writev startPos iov rs restoreSeek errno0).finalPos = startPos) := by
  simp only [writev, if_neg hpos]
  rw [hfail]
  rcases restoreSeek with _ | se <;> simp

/-- C10 witness: a 3-byte area whose second `write` fails with
`errno = 5`: `writev` returns `ERROR`, `errno` is 5, and the position is
restored to 10. -/
theorem writev_error_restores_witness :
    (writev 10 iovErr rsErr none 0).outcome = .error ∧
    (writev 10 iovErr rsErr none 0).errno = 5 ∧
    (writev 10 iovErr rsErr none 0).finalPos = 10 := by
  obtain ⟨h1, h2, h3⟩ := writev_error_restores 10 iovErr rsErr none 0 5
    (by decide) (by decide)
  exact ⟨h1, h2, h3 rfl⟩
